import Mathlib

/-!
Verification of the Tetris rules engine in `src/game/tetris.py`.

The engine is shallowly embedded: Python lists become Lean `List`s, the
`Optional[str]` cell type becomes `Option String`, in-place mutation becomes
explicit state passing, and Python exceptions (`KeyError` on an unknown
`SHAPES` key, `IndexError` on an out-of-range list index) become `Option`
results, `none` meaning the Python code raises.  Python's negative-index
list access (`l[-1]` is the last element) is modelled by `pyGet`, and
Python's `%` on a positive modulus agrees with `Int.emod`.
-/

namespace Tetris

/-- `GRID_WIDTH = 10` from the source. -/
def GRID_WIDTH : Int := 10

/-- `GRID_HEIGHT = 20` from the source. -/
def GRID_HEIGHT : Int := 20

/-- The `SHAPES` table: for each of the 7 kind names, the ordered list of
rotation states, each a list of 4 relative `(x, y)` offsets.  Transcribed from
the `SHAPES` dict in the source; an unknown key gives `none` (Python raises
`KeyError`). -/
def SHAPES : String → Option (List (List (Int × Int)))
  | "I" => some [
      [(0, 1), (1, 1), (2, 1), (3, 1)],
      [(2, 0), (2, 1), (2, 2), (2, 3)]]
  | "J" => some [
      [(0, 0), (0, 1), (1, 1), (2, 1)],
      [(1, 0), (2, 0), (1, 1), (1, 2)],
      [(0, 1), (1, 1), (2, 1), (2, 2)],
      [(1, 0), (1, 1), (0, 2), (1, 2)]]
  | "L" => some [
      [(2, 0), (0, 1), (1, 1), (2, 1)],
      [(1, 0), (1, 1), (1, 2), (2, 2)],
      [(0, 1), (1, 1), (2, 1), (0, 2)],
      [(0, 0), (1, 0), (1, 1), (1, 2)]]
  | "O" => some [
      [(1, 0), (2, 0), (1, 1), (2, 1)]]
  | "S" => some [
      [(1, 0), (2, 0), (0, 1), (1, 1)],
      [(1, 0), (1, 1), (2, 1), (2, 2)]]
  | "T" => some [
      [(1, 0), (0, 1), (1, 1), (2, 1)],
      [(1, 0), (1, 1), (2, 1), (1, 2)],
      [(0, 1), (1, 1), (2, 1), (1, 2)],
      [(1, 0), (0, 1), (1, 1), (1, 2)]]
  | "Z" => some [
      [(0, 0), (1, 0), (1, 1), (2, 1)],
      [(2, 0), (1, 1), (2, 1), (1, 2)]]
  | _ => none

/-- `SHAPE_ORDER = list(SHAPES.keys())`: insertion order of the dict. -/
def SHAPE_ORDER : List String := ["I", "J", "L", "O", "S", "T", "Z"]

/-- Python list indexing `l[i]` on an `int` index: nonnegative indices are
positional, negative indices count from the end, anything else raises
(`none`). -/
def pyGet (l : List α) (i : Int) : Option α :=
  if 0 ≤ i then l.get? i.toNat
  else if 0 ≤ i + l.length then l.get? (i + l.length).toNat
  else none

/-- Python list assignment `l[i] = v` for an index that the caller has
bounds-checked; negative indices count from the end as in Python.  (On a
genuinely out-of-range index Python raises; `List.set` leaves the list
unchanged instead, which no theorem below relies on.) -/
def pySet (l : List α) (i : Int) (v : α) : List α :=
  if 0 ≤ i then l.set i.toNat v
  else l.set (i + l.length).toNat v

/-- The `Tetromino` dataclass: `name`, `rotation`, `position`.  The Python
fields are unconstrained (`rotation` is any `int`), so `rotation` is `Int`. -/
structure Tetromino where
  name : String
  rotation : Int
  position : Int × Int
  deriving Repr, DecidableEq

/-- The dataclass's default arguments: `rotation=0`,
`position=(GRID_WIDTH // 2 - 2, 0)` = `(3, 0)`. -/
def Tetromino.initial (name : String) : Tetromino :=
  ⟨name, 0, (GRID_WIDTH / 2 - 2, 0)⟩

/-- `Tetromino.cells`: `SHAPES[self.name][self.rotation]` translated by the
anchor.  `none` when Python would raise (unknown kind, or rotation index out
of Python's indexable range). -/
def Tetromino.cells (t : Tetromino) : Option (List (Int × Int)) :=
  (SHAPES t.name).bind fun rots =>
    (pyGet rots t.rotation).map fun offsets =>
      offsets.map fun o => (t.position.1 + o.1, t.position.2 + o.2)

/-- `Tetromino.moved(dx, dy)`: anchor shifted, kind and rotation unchanged. -/
def Tetromino.moved (t : Tetromino) (dx dy : Int) : Tetromino :=
  ⟨t.name, t.rotation, (t.position.1 + dx, t.position.2 + dy)⟩

/-- `Tetromino.rotated(direction)`: rotation index advanced by `direction`
modulo the kind's rotation-state count (`Int.emod` agrees with Python `%` on
the positive modulus); `none` when `SHAPES[self.name]` raises. -/
def Tetromino.rotated (t : Tetromino) (direction : Int) : Option Tetromino :=
  (SHAPES t.name).map fun rots =>
    ⟨t.name, (t.rotation + direction) % (rots.length : Int), t.position⟩

/-- A board cell: empty (`None`) or a kind name. -/
abbrev Cell := Option String

/-- A board: a list of rows, each a list of cells. -/
abbrev Board := List (List Cell)

/-- `create_board()`: 20 rows of 10 empty cells. -/
def create_board : Board :=
  List.replicate GRID_HEIGHT.toNat (List.replicate GRID_WIDTH.toNat none)

/-- `board[y][x] is not None` for indices the source has already
bounds-checked to satisfy `0 ≤ x < GRID_WIDTH` and `0 ≤ y < GRID_HEIGHT`
(out-of-range access reads as empty; on a well-formed 20×10 board the
source's checks make every access in range, so this agrees with Python). -/
def cellOccupied (board : Board) (y x : Int) : Bool :=
  match (board.get? y.toNat).bind fun row => row.get? x.toNat with
  | some (some _) => true
  | _ => false

/-- `is_valid_position(board, piece)`: every occupied cell has
`0 ≤ x < GRID_WIDTH`, `y < GRID_HEIGHT`, and if `y ≥ 0` the board cell is
empty.  `none` when `piece.cells()` raises. -/
def is_valid_position (board : Board) (piece : Tetromino) : Option Bool :=
  (piece.cells).map fun cs =>
    cs.all fun c =>
      !(c.1 < 0 || GRID_WIDTH ≤ c.1 || GRID_HEIGHT ≤ c.2) &&
      !(0 ≤ c.2 && cellOccupied board c.2 c.1)

/-- `lock_piece(board, piece)`: write `piece.name` into every occupied cell
whose `y` lies in `[0, GRID_HEIGHT)`; mutation modelled by returning the new
board.  `none` when `piece.cells()` raises. -/
def lock_piece (board : Board) (piece : Tetromino) : Option Board :=
  (piece.cells).map fun cs =>
    cs.foldl (fun b c =>
      if 0 ≤ c.2 && c.2 < GRID_HEIGHT then
        pySet b c.2 (pySet (b.get? c.2.toNat |>.getD []) c.1 (some piece.name))
      else b) board

/-- `clear_lines(board)`: keep the rows containing an empty cell, prepend
empty rows until the height is `GRID_HEIGHT` again, return
`GRID_HEIGHT - len(remaining_rows)` (the mutation of `board[:]` is modelled
by returning the new board alongside the count). -/
def clear_lines (board : Board) : Board × Int :=
  let remaining_rows := board.filter fun row => row.contains none
  (List.replicate (GRID_HEIGHT.toNat - remaining_rows.length)
      (List.replicate GRID_WIDTH.toNat none) ++ remaining_rows,
   GRID_HEIGHT - (remaining_rows.length : Int))

/-- State of the piece randomizer.  `random.Random` is modelled abstractly by
the stream `bags` of the successive outputs of
`bag = SHAPE_ORDER.copy(); rng.shuffle(bag)`: `bags k` is the `k`-th bag the
session's random source would produce, and `idx` counts bags consumed.  That
each produced bag is a permutation of `SHAPE_ORDER` is `random.shuffle`'s
library contract and appears as a hypothesis where needed. -/
structure PieceQueue where
  queue : List String
  bags : Nat → List String
  idx : Nat

/-- `next_bag(rng)`: the next shuffled copy of `SHAPE_ORDER`, advancing the
random source. -/
def next_bag (s : PieceQueue) : List String × PieceQueue :=
  (s.bags s.idx, ⟨s.queue, s.bags, s.idx + 1⟩)

/-- `spawn_piece(queue, rng)`: extend the queue with a fresh bag when empty,
then `queue.pop(0)`; `none` when `pop(0)` would raise on an empty list. -/
def spawn_piece (s : PieceQueue) : Option (String × PieceQueue) :=
  let s1 : PieceQueue :=
    if s.queue.isEmpty then
      let b := next_bag s
      ⟨s.queue ++ b.1, b.2.bags, b.2.idx⟩
    else s
  match s1.queue with
  | [] => none
  | h :: t => some (h, ⟨t, s1.bags, s1.idx⟩)

/-- Draw `n` pieces in sequence from the queue. -/
def drawN : Nat → PieceQueue → Option (List String × PieceQueue)
  | 0, s => some ([], s)
  | n + 1, s =>
    (spawn_piece s).bind fun p =>
      (drawN n p.2).map fun q => (p.1 :: q.1, q.2)

/-- One iteration of `hard_drop`'s `while True` loop, with explicit fuel;
`none` on fuel exhaustion (the loop in the source is unbounded; the fuel
chosen in `hard_drop` below is proved sufficient for well-formed pieces,
and a `none` from `is_valid_position` models the Python exception). -/
def hard_drop_fuel : Nat → Board → Tetromino → Option Tetromino
  | 0, _, _ => none
  | n + 1, board, dropped =>
    let candidate := dropped.moved 0 1
    match is_valid_position board candidate with
    | none => none
    | some false => some dropped
    | some true => hard_drop_fuel n board candidate

/-- `hard_drop(board, piece)`: translate down by 1 while valid, return the
last valid position.  Every offset in `SHAPES` has `y ≥ 0`, so once the
anchor's `y` reaches `GRID_HEIGHT` the candidate is invalid; hence
`(GRID_HEIGHT - y).toNat + 1` fuel always suffices (proved below). -/
def hard_drop (board : Board) (piece : Tetromino) : Option Tetromino :=
  hard_drop_fuel ((GRID_HEIGHT - piece.position.2).toNat + 1) board piece

/-- `calculate_drop_interval(level)`: `max(100, 700 - (level - 1) * 60)`. -/
def calculate_drop_interval (level : Int) : Int :=
  max 100 (700 - (level - 1) * 60)

/-- The `scoring_table` dict lookup `.get(cleared_now, 0)`. -/
def scoring_table (c : Int) : Int :=
  if c = 0 then 0
  else if c = 1 then 100
  else if c = 2 then 300
  else if c = 3 then 500
  else if c = 4 then 800
  else 0

/-- `update_level_and_score(score, lines_cleared, cleared_now)`; Python `//`
is floor division, i.e. `Int.fdiv`. -/
def update_level_and_score (score lines_cleared cleared_now : Int) :
    Int × Int × Int :=
  let score := score + scoring_table cleared_now
  let lines_cleared := lines_cleared + cleared_now
  let level := max 1 (Int.fdiv lines_cleared 10 + 1)
  (score, lines_cleared, level)

/-- The tuple returned by `settle_piece`, together with the mutated board and
queue state. -/
structure SettleResult where
  board : Board
  current_piece : Tetromino
  next_piece_name : String
  queue : PieceQueue
  score : Int
  lines_cleared : Int
  level : Int
  drop_interval : Int
  game_over : Bool

/-- `settle_piece`: lock the current piece, clear lines, update
score/lines/level and the drop interval, make the previously drawn next kind
the current piece at the default spawn, draw a new next kind, and set
`game_over` iff the new current piece's position is invalid. -/
def settle_piece (board : Board) (current_piece : Tetromino)
    (next_piece_name : String) (q : PieceQueue)
    (score lines_cleared level : Int) : Option SettleResult :=
  (lock_piece board current_piece).bind fun board1 =>
    let cl := clear_lines board1
    let upd := update_level_and_score score lines_cleared cl.2
    let drop_interval := calculate_drop_interval upd.2.2
    let current := Tetromino.initial next_piece_name
    (spawn_piece q).bind fun nxt =>
      (is_valid_position cl.1 current).map fun valid =>
        ⟨cl.1, current, nxt.1, nxt.2, upd.1, upd.2.1, upd.2.2,
         drop_interval, !valid⟩

/-- The wall-kick loop in `main`'s `K_UP` handler: try the offsets in order,
accept the first valid kicked piece, keep `fallback` (the unrotated current
piece) when none is valid. -/
def try_kicks (board : Board) (r fallback : Tetromino) :
    List Int → Option Tetromino
  | [] => some fallback
  | dx :: rest =>
    let kicked := r.moved dx 0
    match is_valid_position board kicked with
    | none => none
    | some true => some kicked
    | some false => try_kicks board r fallback rest

/-- The `K_UP` branch of `main`: rotate clockwise; accept if valid, else try
wall kicks `(-1, 1, -2, 2)`; the result is the new current piece. -/
def rotate_command (board : Board) (piece : Tetromino) : Option Tetromino :=
  (piece.rotated 1).bind fun r =>
    match is_valid_position board r with
    | none => none
    | some true => some r
    | some false => try_kicks board r piece [-1, 1, -2, 2]

/-- A piece whose kind is in the catalog and whose rotation index is in
`[0, count)` — the only pieces the game ever constructs. -/
def Tetromino.wf (t : Tetromino) : Bool :=
  match SHAPES t.name with
  | some rots => decide (0 ≤ t.rotation) && decide (t.rotation < (rots.length : Int))
  | none => false

/-- A well-formed board: exactly `GRID_HEIGHT` rows of `GRID_WIDTH` cells. -/
def boardWF (b : Board) : Bool :=
  (b.length == GRID_HEIGHT.toNat) &&
  b.all fun row => row.length == GRID_WIDTH.toNat

/-- Every nonempty cell holds a valid kind name. -/
def boardKindsValid (b : Board) : Bool :=
  b.all fun row => row.all fun c =>
    match c with
    | none => true
    | some k => (SHAPES k).isSome

/-- Read the board cell at row `y`, column `x` (`none` when out of range). -/
def getCell (b : Board) (y x : Int) : Option Cell :=
  (b.get? y.toNat).bind fun row => row.get? x.toNat

/-- The write loop of `lock_piece` over an explicit cell list (the same fold
as in `lock_piece`, factored out for reasoning). -/
def lockFold (name : String) (cs : List (Int × Int)) (b : Board) : Board :=
  cs.foldl (fun b c =>
    if 0 ≤ c.2 && c.2 < GRID_HEIGHT then
      pySet b c.2 (pySet (b.get? c.2.toNat |>.getD []) c.1 (some name))
    else b) b

/-- Iterate `Tetromino.rotated` with a fixed direction. -/
def rotatedIter (t : Tetromino) (d : Int) : Nat → Option Tetromino
  | 0 => some t
  | n + 1 => (rotatedIter t d n).bind fun u => u.rotated d

/-- The concrete board of the spec's line-clear example: rows 3 and 5 full,
every other row partial (one filled cell, nine empty). -/
def exampleBoardC2 : Board :=
  List.replicate 3 (some "I" :: List.replicate 9 none) ++
  [List.replicate 10 (some "I")] ++
  [some "I" :: List.replicate 9 none] ++
  [List.replicate 10 (some "I")] ++
  List.replicate 14 (some "I" :: List.replicate 9 none)

/- ### Facts about the shape catalog -/

/-- Every catalog entry has 1, 2 or 4 rotation states. -/
theorem SHAPES_num_states (name : String) (rots : List (List (Int × Int)))
    (h : SHAPES name = some rots) :
    rots.length = 1 ∨ rots.length = 2 ∨ rots.length = 4 := by
  unfold SHAPES at h
  split at h <;> simp only [Option.some.injEq, reduceCtorEq] at h <;>
    subst h <;> decide

/-- Every rotation state in the catalog has exactly 4 offsets, all with a
nonnegative `y` component. -/
theorem SHAPES_states (name : String) (rots : List (List (Int × Int)))
    (h : SHAPES name = some rots) :
    ∀ st ∈ rots, st.length = 4 ∧ ∀ o ∈ st, 0 ≤ o.2 := by
  unfold SHAPES at h
  split at h <;> simp only [Option.some.injEq, reduceCtorEq] at h <;>
    subst h <;> decide

/-- The O entry has exactly one rotation state. -/
theorem SHAPES_O : ∃ rots, SHAPES "O" = some rots ∧ rots.length = 1 :=
  ⟨_, rfl, rfl⟩

/- ### Facts about pieces -/

/-- Moving changes only the anchor. -/
theorem Tetromino.moved_def (t : Tetromino) (dx dy : Int) :
    t.moved dx dy = ⟨t.name, t.rotation, (t.position.1 + dx, t.position.2 + dy)⟩ :=
  rfl

/-- Moving by `(0, 0)` is the identity. -/
theorem Tetromino.moved_zero (t : Tetromino) : t.moved 0 0 = t := by
  cases t with
  | mk name rotation position => simp [Tetromino.moved]

/-- Successive moves add. -/
theorem Tetromino.moved_moved (t : Tetromino) (dx dy dx' dy' : Int) :
    (t.moved dx dy).moved dx' dy' = t.moved (dx + dx') (dy + dy') := by
  simp [Tetromino.moved]; constructor <;> ring

/-- The cells of a moved piece are the translated cells. -/
theorem Tetromino.cells_moved (t : Tetromino) (dx dy : Int) :
    (t.moved dx dy).cells =
      t.cells.map fun cs => cs.map fun c => (c.1 + dx, c.2 + dy) := by
  unfold Tetromino.cells
  simp only [Tetromino.moved]
  cases h : SHAPES t.name with
  | none => rfl
  | some rots =>
    simp only [Option.some_bind]
    cases hg : pyGet rots t.rotation with
    | none => rfl
    | some offsets =>
      simp only [Option.map_some']
      rw [List.map_map]
      apply congrArg
      apply List.map_congr_left
      intro o _
      simp only [Function.comp_apply, Prod.mk.injEq]
      constructor <;> ring

/-- A well-formed piece's cells are defined, nonempty, and each has a
`y`-coordinate at least the anchor's. -/
theorem Tetromino.cells_of_wf (t : Tetromino) (hw : t.wf = true) :
    ∃ cs, t.cells = some cs ∧ cs ≠ [] ∧ ∀ c ∈ cs, t.position.2 ≤ c.2 := by
  unfold Tetromino.wf at hw
  split at hw
  case h_2 => exact absurd hw (by simp)
  case h_1 rots hrots =>
    simp only [Bool.and_eq_true, decide_eq_true_eq] at hw
    obtain ⟨h0, hlt⟩ := hw
    have hlt' : t.rotation.toNat < rots.length := by omega
    obtain ⟨offsets, hoff⟩ : ∃ offsets, rots.get? t.rotation.toNat = some offsets :=
      ⟨rots.get ⟨_, hlt'⟩, List.get?_eq_get hlt'⟩
    have hmem : offsets ∈ rots := List.get?_mem hoff
    have hst := SHAPES_states t.name rots hrots offsets hmem
    refine ⟨offsets.map fun o => (t.position.1 + o.1, t.position.2 + o.2), ?_, ?_, ?_⟩
    · unfold Tetromino.cells pyGet
      rw [hrots]
      simp [h0]
      exact ⟨offsets, by rw [← List.get?_eq_getElem?]; exact hoff, rfl⟩
    · simp only [ne_eq, List.map_eq_nil_iff]
      intro hnil
      rw [hnil] at hst
      simp at hst
    · intro c hc
      simp only [List.mem_map] at hc
      obtain ⟨o, ho, rfl⟩ := hc
      have := hst.2 o ho
      omega

/- ### Facts about the piece queue -/

/-- Popping from a nonempty queue returns its front and does not touch the
random source. -/
theorem spawn_piece_cons (h : String) (t : List String)
    (bags : Nat → List String) (i : Nat) :
    spawn_piece ⟨h :: t, bags, i⟩ = some (h, ⟨t, bags, i⟩) := rfl

/-- Popping from an empty queue first appends the next bag, then pops its
front, advancing the random source. -/
theorem spawn_piece_refill (bags : Nat → List String) (i : Nat)
    (b0 : String) (bt : List String) (hbag : bags i = b0 :: bt) :
    spawn_piece ⟨[], bags, i⟩ = some (b0, ⟨bt, bags, i + 1⟩) := by
  unfold spawn_piece next_bag
  simp [hbag]

/-- Drawing exactly the queue's length empties the queue and yields its
contents in order. -/
theorem drawN_queue_exact (l : List String) (bags : Nat → List String)
    (i : Nat) :
    drawN l.length ⟨l, bags, i⟩ = some (l, ⟨[], bags, i⟩) := by
  induction l with
  | nil => rfl
  | cons h t ih => simp [drawN, spawn_piece_cons, ih]

/-- Drawing `a + b` pieces is drawing `a` then `b`. -/
theorem drawN_add (a b : Nat) (s : PieceQueue) :
    drawN (a + b) s = (drawN a s).bind fun p =>
      (drawN b p.2).map fun r => (p.1 ++ r.1, r.2) := by
  induction a generalizing s with
  | zero => cases hd : drawN b s <;> simp [drawN, hd]
  | succ n ih =>
    rw [Nat.succ_add]
    cases hs : spawn_piece s with
    | none => simp [drawN, hs]
    | some p =>
      simp only [drawN, hs, Option.some_bind]
      rw [ih]
      cases hd : drawN n p.2 with
      | none => rfl
      | some r =>
        cases hd2 : drawN b r.2 <;> simp [hd2, Function.comp]

/-- From an empty queue, 7 draws consume exactly one bag. -/
theorem drawN_one_bag (bags : Nat → List String) (i : Nat)
    (hlen : (bags i).length = 7) :
    drawN 7 ⟨[], bags, i⟩ = some (bags i, ⟨[], bags, i + 1⟩) := by
  rcases hbag : bags i with _ | ⟨b0, bt⟩
  · rw [hbag] at hlen
    simp at hlen
  · have hbt : bt.length = 6 := by
      rw [hbag] at hlen
      simpa using hlen
    show drawN (6 + 1) _ = _
    rw [drawN, spawn_piece_refill bags i b0 bt hbag]
    simp only [Option.some_bind]
    rw [← hbt, drawN_queue_exact]
    simp [hbag]

/-- From an empty queue, `7 * m` draws consume exactly the next `m` bags in
order. -/
theorem drawN_bags (bags : Nat → List String)
    (hlen : ∀ k, (bags k).length = 7) :
    ∀ (m i : Nat), drawN (7 * m) ⟨[], bags, i⟩ =
      some ((((List.range m).map fun j => bags (i + j))).flatten,
            ⟨[], bags, i + m⟩) := by
  intro m
  induction m with
  | zero => intro i; simp [drawN]
  | succ mm ih =>
    intro i
    rw [show 7 * (mm + 1) = 7 + 7 * mm by ring, drawN_add,
      drawN_one_bag bags i (hlen i)]
    simp only [Option.some_bind]
    rw [ih (i + 1)]
    simp only [Option.map_some', Option.some.injEq, Prod.mk.injEq,
      PieceQueue.mk.injEq, true_and, and_true]
    refine ⟨?_, by omega⟩
    rw [List.range_succ_eq_map]
    simp only [List.map_cons, List.map_map, List.flatten_cons, Nat.add_zero]
    have hmap : List.map ((fun j => bags (i + j)) ∘ Nat.succ) (List.range mm) =
        List.map (fun j => bags (i + 1 + j)) (List.range mm) :=
      List.map_congr_left fun j _ => by
        simp only [Function.comp_apply]
        congr 1
        omega
    rw [hmap]

/- ### Facts about piece cells at the spawn position -/

/-- The cells of a freshly spawned piece of a known kind come from rotation
state 0. -/
theorem Tetromino.cells_initial (name : String)
    (rots : List (List (Int × Int))) (st : List (Int × Int))
    (hrots : SHAPES name = some rots) (hst : rots.get? 0 = some st) :
    (Tetromino.initial name).cells =
      some (st.map fun o => (GRID_WIDTH / 2 - 2 + o.1, 0 + o.2)) := by
  unfold Tetromino.cells Tetromino.initial pyGet
  dsimp only
  rw [hrots]
  simp [hst]
  exact ⟨st, by rw [← List.get?_eq_getElem?]; exact hst, rfl⟩

/-- `is_valid_position` returns a result whenever the piece's cells are
defined. -/
theorem is_valid_position_total (board : Board) (t : Tetromino)
    (cs : List (Int × Int)) (h : t.cells = some cs) :
    ∃ v, is_valid_position board t = some v := by
  unfold is_valid_position
  rw [h]
  exact ⟨_, rfl⟩

/- ### Claim theorems -/

/-- C4: every lock adds 0/100/300/500/800 points for 0–4 cleared rows (0 for
any other count), adds the cleared count to total lines, recomputes the level
as `max(1, lines // 10 + 1)`, and the drop interval is
`max(100, 700 - (level - 1) * 60)`; in particular clearing 2 rows from
score 1000, lines 9 yields score 1300, lines 11, level 2, interval 640. -/
theorem C4_scoring_policy (score lines cleared : Int) :
    update_level_and_score score lines cleared =
      (score + scoring_table cleared, lines + cleared,
        max 1 (Int.fdiv (lines + cleared) 10 + 1)) ∧
    scoring_table 0 = 0 ∧ scoring_table 1 = 100 ∧ scoring_table 2 = 300 ∧
    scoring_table 3 = 500 ∧ scoring_table 4 = 800 ∧
    ((cleared < 0 ∨ 4 < cleared) → scoring_table cleared = 0) ∧
    (∀ level : Int, calculate_drop_interval level =
      max 100 (700 - (level - 1) * 60)) ∧
    update_level_and_score 1000 9 2 = (1300, 11, 2) ∧
    calculate_drop_interval 2 = 640 := by
  refine ⟨rfl, rfl, rfl, rfl, rfl, rfl, ?_, fun _ => rfl, by decide, by decide⟩
  intro h
  unfold scoring_table
  split_ifs <;> omega

/-- C4 witness: the policy applied at `cleared = 7` (lookup default) and at
the spec's concrete example. -/
theorem C4_scoring_policy_witness :
    scoring_table 7 = 0 ∧ update_level_and_score 1000 9 2 = (1300, 11, 2) :=
  ⟨(C4_scoring_policy 0 0 7).2.2.2.2.2.2.1 (Or.inr (by decide)),
   (C4_scoring_policy 1000 9 2).2.2.2.2.2.2.2.2.1⟩

/-- C9 counterexample: the T kind has 4 rotation states, the rotation index
`-1` lies outside `[0, 4)`, yet computing the cells of a T piece with
rotation `-1` does not fail fast: Python's negative list indexing silently
returns the cells of rotation state 3. -/
theorem C9_fail_fast_counterexample :
    (SHAPES "T").map List.length = some 4 ∧
    ((-1 : Int) < 0 ∨ (4 : Int) ≤ -1) ∧
    (Tetromino.mk "T" (-1) (0, 0)).cells = some [(1, 0), (0, 1), (1, 1), (1, 2)] := by
  refine ⟨rfl, Or.inl (by decide), by decide⟩

/-- C9 (amended): an unknown kind fails fast when cells are computed, and so
does a rotation index `≥ count` or `< -count`; but a rotation index in
`[-count, 0)` — outside `[0, count)` — is silently tolerated by Python's
negative indexing and yields a cell set. -/
theorem C9_fail_fast_amended (t : Tetromino) :
    (SHAPES t.name = none → t.cells = none) ∧
    (∀ rots, SHAPES t.name = some rots →
      (((rots.length : Int) ≤ t.rotation → t.cells = none) ∧
       (t.rotation < -(rots.length : Int) → t.cells = none) ∧
       (-(rots.length : Int) ≤ t.rotation → t.rotation < 0 → t.cells ≠ none))) := by
  refine ⟨?_, ?_⟩
  · intro h
    unfold Tetromino.cells
    rw [h]
    rfl
  · intro rots hrots
    refine ⟨?_, ?_, ?_⟩
    · intro hge
      have h0 : 0 ≤ t.rotation := le_trans (Int.ofNat_nonneg rots.length) hge
      have hnone : rots.get? t.rotation.toNat = none :=
        List.get?_eq_none.mpr (by omega)
      unfold Tetromino.cells pyGet
      rw [hrots]
      simp only [Option.some_bind, if_pos h0, hnone, Option.map_none']
    · intro hlt
      have h1 : ¬(0 ≤ t.rotation) := by omega
      have h2 : ¬(0 ≤ t.rotation + rots.length) := by omega
      unfold Tetromino.cells pyGet
      rw [hrots]
      simp [h1, h2]
    · intro hge hneg
      have h1 : ¬(0 ≤ t.rotation) := by omega
      have h2 : 0 ≤ t.rotation + rots.length := by omega
      have hlt' : (t.rotation + rots.length).toNat < rots.length := by omega
      unfold Tetromino.cells pyGet
      rw [hrots]
      simp [h1, h2, List.get?_eq_get hlt']

/-- C9 witness: fail-fast on an unknown kind, on rotation 4 of T, on
rotation -5 of T; silent tolerance of rotation -1 of T. -/
theorem C9_fail_fast_witness :
    (Tetromino.mk "X" 0 (0, 0)).cells = none ∧
    (Tetromino.mk "T" 4 (0, 0)).cells = none ∧
    (Tetromino.mk "T" (-5) (0, 0)).cells = none ∧
    (Tetromino.mk "T" (-1) (0, 0)).cells ≠ none := by
  have hT : SHAPES "T" = some [
      [(1, 0), (0, 1), (1, 1), (2, 1)],
      [(1, 0), (1, 1), (2, 1), (1, 2)],
      [(0, 1), (1, 1), (2, 1), (1, 2)],
      [(1, 0), (0, 1), (1, 1), (1, 2)]] := rfl
  exact ⟨(C9_fail_fast_amended ⟨"X", 0, (0, 0)⟩).1 rfl,
   ((C9_fail_fast_amended ⟨"T", 4, (0, 0)⟩).2 _ hT).1 (by decide),
   ((C9_fail_fast_amended ⟨"T", -5, (0, 0)⟩).2 _ hT).2.1 (by decide),
   ((C9_fail_fast_amended ⟨"T", -1, (0, 0)⟩).2 _ hT).2.2 (by decide) (by decide)⟩

/-- C1: on a well-formed board, a piece whose cells are defined is reported
valid iff every cell has `0 ≤ x < 10`, `y < 20`, and is above the grid
(`y < 0`) or over an empty board cell; and any cell with `x < 0`, `x ≥ 10`
or `y ≥ 20` forces the result `false`. -/
theorem C1_valid_position_iff (board : Board) (piece : Tetromino)
    (cs : List (Int × Int)) (hb : boardWF board = true)
    (h : piece.cells = some cs) :
    (is_valid_position board piece = some true ↔
      ∀ c ∈ cs, 0 ≤ c.1 ∧ c.1 < GRID_WIDTH ∧ c.2 < GRID_HEIGHT ∧
        (c.2 < 0 ∨ cellOccupied board c.2 c.1 = false)) ∧
    (∀ c ∈ cs, (c.1 < 0 ∨ GRID_WIDTH ≤ c.1 ∨ GRID_HEIGHT ≤ c.2) →
      is_valid_position board piece = some false) := by
  unfold is_valid_position
  rw [h]
  simp only [Option.map_some', Option.some.injEq]
  unfold GRID_WIDTH GRID_HEIGHT
  constructor
  · rw [List.all_eq_true]
    constructor
    · intro hall c hc
      have hcb := hall c hc
      revert hcb
      cases hco : cellOccupied board c.2 c.1 <;> simp [hco] <;> omega
    · intro hall c hc
      have hcb := hall c hc
      revert hcb
      cases hco : cellOccupied board c.2 c.1 <;> simp [hco] <;> omega
  · intro c hc hbad
    rw [List.all_eq_false]
    refine ⟨c, hc, ?_⟩
    revert hbad
    cases hco : cellOccupied board c.2 c.1 <;> simp [hco] <;> omega

/-- C1 witness: the initial T piece on the empty board, with its concrete
cell list, is valid. -/
theorem C1_valid_position_witness :
    boardWF create_board = true ∧
    (Tetromino.initial "T").cells = some [(4, 0), (3, 1), (4, 1), (5, 1)] ∧
    is_valid_position create_board (Tetromino.initial "T") = some true := by
  refine ⟨by decide, by decide, ?_⟩
  exact (C1_valid_position_iff create_board (Tetromino.initial "T")
    [(4, 0), (3, 1), (4, 1), (5, 1)] (by decide) (by decide)).1.mpr (by decide)

/-- C2: on a 20-row board, `clear_lines` removes exactly the rows with no
empty cell in one pass, keeps the other rows in order at the bottom, refills
the top with empty rows, and returns the number of removed rows. -/
theorem C2_clear_lines_characterization (board : Board)
    (hlen : board.length = GRID_HEIGHT.toNat) :
    clear_lines board =
      (List.replicate (board.countP fun r => !(r.contains none))
          (List.replicate GRID_WIDTH.toNat none)
        ++ board.filter fun r => r.contains none,
       ((board.countP fun r => !(r.contains none)) : Int)) := by
  have hc : (board.countP fun r => decide ¬(r.contains none) = true)
      = board.countP fun r => !(r.contains none) :=
    List.countP_congr fun a _ => by simp
  have hsplit := List.length_eq_countP_add_countP
    (fun r : List Cell => r.contains none) board
  rw [hc, List.countP_eq_length_filter] at hsplit
  have h20 : GRID_HEIGHT = 20 := rfl
  unfold clear_lines
  refine Prod.ext ?_ ?_ <;> dsimp only
  · have he : GRID_HEIGHT.toNat - (board.filter fun r => r.contains none).length
        = board.countP fun r => !(r.contains none) := by omega
    rw [he]
  · omega

/-- C2 witness: the spec's example board (rows 3 and 5 full, others partial)
satisfies the characterization; concretely, 2 is returned and the top two
rows are fully empty afterwards. -/
theorem C2_clear_lines_witness :
    exampleBoardC2.length = GRID_HEIGHT.toNat ∧
    clear_lines exampleBoardC2 =
      (List.replicate (exampleBoardC2.countP fun r => !(r.contains none))
          (List.replicate GRID_WIDTH.toNat none)
        ++ exampleBoardC2.filter fun r => r.contains none,
       ((exampleBoardC2.countP fun r => !(r.contains none)) : Int)) ∧
    (clear_lines exampleBoardC2).2 = 2 ∧
    (clear_lines exampleBoardC2).1.take 2 =
      List.replicate 2 (List.replicate 10 none) ∧
    (clear_lines exampleBoardC2).1.drop 2 =
      exampleBoardC2.filter (fun r => r.contains none) :=
  ⟨by decide, C2_clear_lines_characterization exampleBoardC2 (by decide),
   by decide, by decide, by decide⟩

/-- C5: a rotate command accepts the clockwise-rotated piece when valid;
otherwise it tries the horizontal kick offsets in the fixed order
-1, +1, -2, +2 and accepts the first valid kicked piece; when none is valid
the current piece is unchanged.  In particular a rotation invalid at offset 0
but valid at -1 yields exactly the rotated piece shifted by (-1, 0). -/
theorem C5_rotate_wall_kick (board : Board) (piece : Tetromino)
    (hs : SHAPES piece.name ≠ none) :
    ∃ r, piece.rotated 1 = some r ∧
      (is_valid_position board r = some true →
        rotate_command board piece = some r) ∧
      (is_valid_position board r = some false →
        is_valid_position board (r.moved (-1) 0) = some true →
        rotate_command board piece = some (r.moved (-1) 0)) ∧
      (is_valid_position board r = some false →
        is_valid_position board (r.moved (-1) 0) = some false →
        is_valid_position board (r.moved 1 0) = some true →
        rotate_command board piece = some (r.moved 1 0)) ∧
      (is_valid_position board r = some false →
        is_valid_position board (r.moved (-1) 0) = some false →
        is_valid_position board (r.moved 1 0) = some false →
        is_valid_position board (r.moved (-2) 0) = some true →
        rotate_command board piece = some (r.moved (-2) 0)) ∧
      (is_valid_position board r = some false →
        is_valid_position board (r.moved (-1) 0) = some false →
        is_valid_position board (r.moved 1 0) = some false →
        is_valid_position board (r.moved (-2) 0) = some false →
        is_valid_position board (r.moved 2 0) = some true →
        rotate_command board piece = some (r.moved 2 0)) ∧
      (is_valid_position board r = some false →
        is_valid_position board (r.moved (-1) 0) = some false →
        is_valid_position board (r.moved 1 0) = some false →
        is_valid_position board (r.moved (-2) 0) = some false →
        is_valid_position board (r.moved 2 0) = some false →
        rotate_command board piece = some piece) := by
  cases hrot : SHAPES piece.name with
  | none => exact absurd hrot hs
  | some rots =>
    have hr : piece.rotated 1 =
        some ⟨piece.name, (piece.rotation + 1) % (rots.length : Int), piece.position⟩ := by
      unfold Tetromino.rotated
      rw [hrot]
      rfl
    refine ⟨_, hr, ?_, ?_, ?_, ?_, ?_, ?_⟩ <;>
      (intros; simp_all [rotate_command, try_kicks, hr])

/-- C5 witness: on the empty board the initial T piece rotates cleanly to
rotation state 1 without any kick. -/
theorem C5_rotate_wall_kick_witness :
    rotate_command create_board (Tetromino.initial "T") =
      some ⟨"T", 1, (3, 0)⟩ := by
  obtain ⟨r, hr, h0, -⟩ :=
    C5_rotate_wall_kick create_board (Tetromino.initial "T") (by decide)
  rw [show (Tetromino.initial "T").rotated 1 = some ⟨"T", 1, (3, 0)⟩ from by decide]
    at hr
  cases hr
  exact h0 (by decide)

/-- C6: rotating advances the rotation index by the direction modulo the
kind's rotation-state count, keeping kind and anchor; four rotations in the
same direction restore the piece exactly, and an O piece is fixed by any
number of rotations. -/
theorem C6_rotated_algebra (t : Tetromino) (d : Int) (hd : d = 1 ∨ d = -1)
    (hw : t.wf = true) :
    (∀ rots, SHAPES t.name = some rots →
      t.rotated d = some ⟨t.name, (t.rotation + d) % (rots.length : Int), t.position⟩) ∧
    rotatedIter t d 4 = some t ∧
    (t.name = "O" → ∀ n, rotatedIter t d n = some t) := by
  obtain ⟨name, r, pos⟩ := t
  unfold Tetromino.wf at hw
  dsimp only at hw
  cases hrots : SHAPES name with
  | none => rw [hrots] at hw; exact absurd hw (by simp)
  | some rots =>
    rw [hrots] at hw
    simp only [Bool.and_eq_true, decide_eq_true_eq] at hw
    obtain ⟨h0, hlt⟩ := hw
    have hrotd : ∀ r' : Int, (Tetromino.mk name r' pos).rotated d =
        some ⟨name, (r' + d) % (rots.length : Int), pos⟩ := by
      intro r'
      unfold Tetromino.rotated
      dsimp only
      rw [hrots]
      rfl
    refine ⟨?_, ?_, ?_⟩
    · intro rots' hrots'
      injection hrots' with he
      subst he
      exact hrotd r
    · have hn := SHAPES_num_states name rots hrots
      simp only [rotatedIter, Option.some_bind, hrotd, Option.some.injEq,
        Tetromino.mk.injEq, true_and, and_true]
      rcases hn with hn | hn | hn <;> rw [hn] <;> rcases hd with hd | hd <;>
        subst hd <;> push_cast <;> omega
    · intro hO n
      subst hO
      injection (rfl :
          SHAPES "O" = some [[(1, 0), (2, 0), (1, 1), (2, 1)]]).symm.trans hrots
        with he
      subst he
      have hr0 : r = 0 := by simp at hlt; omega
      subst hr0
      have hfix : (Tetromino.mk "O" 0 pos).rotated d =
          some (Tetromino.mk "O" 0 pos) := by
        rw [hrotd 0]
        simp [Int.emod_one]
      induction n with
      | zero => rfl
      | succ k ih => simp only [rotatedIter, ih, Option.some_bind, hfix]

/-- C6 witness: four clockwise rotations restore the initial T piece, and
nine rotations leave the initial O piece unchanged. -/
theorem C6_rotated_algebra_witness :
    rotatedIter (Tetromino.initial "T") 1 4 = some (Tetromino.initial "T") ∧
    rotatedIter (Tetromino.initial "O") 1 9 = some (Tetromino.initial "O") :=
  ⟨(C6_rotated_algebra (Tetromino.initial "T") 1 (Or.inl rfl) (by decide)).2.1,
   (C6_rotated_algebra (Tetromino.initial "O") 1 (Or.inl rfl) (by decide)).2.2 rfl 9⟩

/-- Each kind occurs exactly once in `SHAPE_ORDER`. -/
theorem SHAPE_ORDER_count (c : String) (hc : c ∈ SHAPE_ORDER) :
    SHAPE_ORDER.count c = 1 := by
  simp only [SHAPE_ORDER, List.mem_cons, List.not_mem_nil, or_false] at hc
  rcases hc with rfl | rfl | rfl | rfl | rfl | rfl | rfl <;> decide

/-- C7: drawing pops the front of the internal sequence, appending a fresh
bag first whenever it is empty; a bag-aligned window of 7 draws is exactly
one shuffled bag, in which each kind occurs once; and 7000 draws from a
fresh queue contain each kind exactly 1000 times, for every stream of
shuffled bags (i.e. regardless of the seed). -/
theorem C7_bag_queue_uniform (bags : Nat → List String)
    (hperm : ∀ k, (bags k).Perm SHAPE_ORDER) (i : Nat) :
    (∀ h t j, spawn_piece ⟨h :: t, bags, j⟩ = some (h, ⟨t, bags, j⟩)) ∧
    (drawN 7 ⟨[], bags, i⟩ = some (bags i, ⟨[], bags, i + 1⟩) ∧
      ∀ c ∈ SHAPE_ORDER, (bags i).count c = 1) ∧
    (∃ w s', drawN 7000 ⟨[], bags, 0⟩ = some (w, s') ∧
      ∀ c ∈ SHAPE_ORDER, w.count c = 1000) := by
  have hlen : ∀ k, (bags k).length = 7 := fun k => (hperm k).length_eq
  refine ⟨fun h t j => spawn_piece_cons h t bags j,
    ⟨drawN_one_bag bags i (hlen i), ?_⟩, ?_⟩
  · intro c hc
    rw [(hperm i).count_eq c]
    exact SHAPE_ORDER_count c hc
  · have hdraw := drawN_bags bags hlen 1000 0
    rw [show (7 : Nat) * 1000 = 7000 by norm_num] at hdraw
    refine ⟨_, _, hdraw, ?_⟩
    intro c hc
    rw [List.count_flatten, List.map_map]
    have hone : List.map (List.count c ∘ fun j => bags (0 + j)) (List.range 1000) =
        List.map (fun _ => 1) (List.range 1000) := by
      apply List.map_congr_left
      intro j _
      simp only [Function.comp_apply]
      rw [(hperm (0 + j)).count_eq c]
      exact SHAPE_ORDER_count c hc
    rw [hone, List.map_const', List.sum_replicate, List.length_range,
      smul_eq_mul, Nat.mul_one]

/-- C7 witness: with every bag equal to `SHAPE_ORDER` itself (a permutation
of itself), a bag-aligned window of 7 draws is that bag. -/
theorem C7_bag_queue_uniform_witness :
    (∀ k, ((fun _ : Nat => SHAPE_ORDER) k).Perm SHAPE_ORDER) ∧
    drawN 7 ⟨[], fun _ => SHAPE_ORDER, 0⟩ =
      some (SHAPE_ORDER, ⟨[], fun _ => SHAPE_ORDER, 1⟩) := by
  have hp : ∀ k, ((fun _ : Nat => SHAPE_ORDER) k).Perm SHAPE_ORDER :=
    fun _ => List.Perm.refl _
  exact ⟨hp, ((C7_bag_queue_uniform (fun _ => SHAPE_ORDER) hp 0).2.1).1⟩

/-- C3: `settle_piece` locks the current piece, clears full rows, applies the
scoring policy to the cleared count, spawns the previously drawn next kind at
the fixed initial position, draws a new next kind from the queue, and reports
game over exactly when the new current piece is invalid on the post-clear
board. -/
theorem C3_settle_sequence (board : Board) (cur : Tetromino) (nxt : String)
    (q : PieceQueue) (score lines level : Int)
    (hcur : ∃ cs, cur.cells = some cs)
    (hnxt : SHAPES nxt ≠ none)
    (hq : q.queue ≠ [] ∨ q.bags q.idx ≠ []) :
    ∃ board1 k q' v,
      lock_piece board cur = some board1 ∧
      spawn_piece q = some (k, q') ∧
      is_valid_position (clear_lines board1).1 (Tetromino.initial nxt) = some v ∧
      settle_piece board cur nxt q score lines level = some ⟨
        (clear_lines board1).1,
        Tetromino.initial nxt,
        k, q',
        (update_level_and_score score lines (clear_lines board1).2).1,
        (update_level_and_score score lines (clear_lines board1).2).2.1,
        (update_level_and_score score lines (clear_lines board1).2).2.2,
        calculate_drop_interval
          (update_level_and_score score lines (clear_lines board1).2).2.2,
        !v⟩ := by
  obtain ⟨cs, hcs⟩ := hcur
  obtain ⟨board1, hlock⟩ : ∃ board1, lock_piece board cur = some board1 := by
    unfold lock_piece
    rw [hcs]
    exact ⟨_, rfl⟩
  obtain ⟨k, q', hspawn⟩ : ∃ k q', spawn_piece q = some (k, q') := by
    obtain ⟨que, bags, idx⟩ := q
    rcases que with _ | ⟨h, t⟩
    · rcases hbag : bags idx with _ | ⟨b0, bt⟩
      · rcases hq with hq | hq
        · exact absurd rfl hq
        · exact absurd hbag hq
      · exact ⟨b0, _, spawn_piece_refill bags idx b0 bt hbag⟩
    · exact ⟨h, _, spawn_piece_cons h t bags idx⟩
  obtain ⟨rots, hrots⟩ : ∃ rots, SHAPES nxt = some rots := by
    cases hr : SHAPES nxt with
    | none => exact absurd hr hnxt
    | some rots => exact ⟨rots, rfl⟩
  obtain ⟨st, hst⟩ : ∃ st, rots.get? 0 = some st := by
    have hn := SHAPES_num_states nxt rots hrots
    cases rots with
    | nil => simp at hn
    | cons a l => exact ⟨a, rfl⟩
  have hcells := Tetromino.cells_initial nxt rots st hrots hst
  obtain ⟨v, hvalid⟩ :=
    is_valid_position_total (clear_lines board1).1 _ _ hcells
  refine ⟨board1, k, q', v, hlock, hspawn, hvalid, ?_⟩
  simp only [settle_piece, hlock, hspawn, hvalid, Option.some_bind,
    Option.map_some']

/-- C3 witness: a concrete settle step from the empty board succeeds. -/
theorem C3_settle_sequence_witness :
    ∃ res, settle_piece create_board (Tetromino.initial "O") "T"
      ⟨["I"], fun _ => SHAPE_ORDER, 0⟩ 0 0 1 = some res := by
  obtain ⟨b1, k, q', v, -, -, -, hset⟩ :=
    C3_settle_sequence create_board (Tetromino.initial "O") "T"
      ⟨["I"], fun _ => SHAPE_ORDER, 0⟩ 0 0 1
      ⟨[(4, 0), (5, 0), (4, 1), (5, 1)], by decide⟩
      (by decide) (Or.inl (by decide))
  exact ⟨_, hset⟩

/-- Well-formedness only depends on kind and rotation, so moving preserves
it. -/
theorem Tetromino.wf_moved (t : Tetromino) (dx dy : Int) :
    (t.moved dx dy).wf = t.wf := rfl

/-- A downward step commutes into a single translation: one step then `k`
more equals `k + 1` steps. -/
theorem Tetromino.moved_down_succ (t : Tetromino) (k : Nat) :
    (t.moved 0 1).moved 0 (k : Int) = t.moved 0 ((k + 1 : Nat) : Int) := by
  rw [Tetromino.moved_moved]
  simp only [Tetromino.moved, Tetromino.mk.injEq, Prod.mk.injEq, true_and]
  constructor <;> push_cast <;> ring

/-- Variant of `moved_down_succ` for the probe one row further down. -/
theorem Tetromino.moved_down_succ' (t : Tetromino) (k : Nat) :
    (t.moved 0 1).moved 0 ((k : Int) + 1) =
      t.moved 0 (((k + 1 : Nat) : Int) + 1) := by
  rw [Tetromino.moved_moved]
  simp only [Tetromino.moved, Tetromino.mk.injEq, Prod.mk.injEq, true_and]
  constructor <;> push_cast <;> ring

/-- Far enough down, a well-formed piece leaves the grid and is invalid
(every catalog offset has nonnegative `y`). -/
theorem is_valid_position_far (board : Board) (t : Tetromino)
    (hw : t.wf = true) (j : Int) (hj : GRID_HEIGHT ≤ t.position.2 + j) :
    is_valid_position board (t.moved 0 j) = some false := by
  obtain ⟨cs, hcs, hne, hy⟩ := Tetromino.cells_of_wf t hw
  have hcm := Tetromino.cells_moved t 0 j
  rw [hcs] at hcm
  unfold is_valid_position
  rw [hcm]
  simp only [Option.map_some', Option.some.injEq]
  rw [List.all_eq_false]
  obtain ⟨c0, hc0⟩ := List.exists_mem_of_ne_nil cs hne
  refine ⟨(c0.1 + 0, c0.2 + j), List.mem_map_of_mem _ hc0, ?_⟩
  have hyc := hy c0 hc0
  have h20 : GRID_HEIGHT ≤ c0.2 + j := by omega
  simp [h20]

/-- The fuelled loop of `hard_drop` stops exactly at the last valid
downward translation when given enough fuel. -/
theorem hard_drop_fuel_spec (board : Board) :
    ∀ (k : Nat) (t : Tetromino) (n : Nat), k < n →
    (∀ j : Nat, 1 ≤ j → j ≤ k →
      is_valid_position board (t.moved 0 (j : Int)) = some true) →
    is_valid_position board (t.moved 0 ((k : Int) + 1)) = some false →
    hard_drop_fuel n board t = some (t.moved 0 (k : Int)) := by
  intro k
  induction k with
  | zero =>
    intro t n hn hval hstop
    obtain ⟨n', rfl⟩ : ∃ n', n = n' + 1 := ⟨n - 1, by omega⟩
    rw [show (((0 : Nat) : Int)) + 1 = 1 by norm_num] at hstop
    unfold hard_drop_fuel
    simp only [hstop]
    simp [Tetromino.moved_zero]
  | succ k ih =>
    intro t n hn hval hstop
    obtain ⟨n', rfl⟩ : ∃ n', n = n' + 1 := ⟨n - 1, by omega⟩
    have hv1 : is_valid_position board (t.moved 0 1) = some true := by
      have h := hval 1 (by omega) (by omega)
      rwa [show ((1 : Nat) : Int) = 1 by norm_num] at h
    have hval' : ∀ j : Nat, 1 ≤ j → j ≤ k →
        is_valid_position board ((t.moved 0 1).moved 0 (j : Int)) = some true := by
      intro j h1 hjk
      rw [Tetromino.moved_down_succ]
      exact hval (j + 1) (by omega) (by omega)
    have hstop' : is_valid_position board
        ((t.moved 0 1).moved 0 ((k : Int) + 1)) = some false := by
      rw [Tetromino.moved_down_succ']
      exact hstop
    have hres := ih (t.moved 0 1) n' (by omega) hval' hstop'
    unfold hard_drop_fuel
    simp only [hv1, hres, Tetromino.moved_down_succ]

/-- C8: for a well-formed piece, `hard_drop` terminates and returns the
piece translated down by the greatest number of steps through which every
intermediate position is valid (the position one step further is invalid),
with kind, rotation and `x` unchanged. -/
theorem C8_hard_drop (board : Board) (piece : Tetromino)
    (hw : piece.wf = true) :
    ∃ k : Nat,
      hard_drop board piece = some (piece.moved 0 (k : Int)) ∧
      (∀ j : Nat, 1 ≤ j → j ≤ k →
        is_valid_position board (piece.moved 0 (j : Int)) = some true) ∧
      is_valid_position board (piece.moved 0 ((k : Int) + 1)) = some false ∧
      (piece.moved 0 (k : Int)).name = piece.name ∧
      (piece.moved 0 (k : Int)).rotation = piece.rotation ∧
      (piece.moved 0 (k : Int)).position.1 = piece.position.1 := by
  have hfar : is_valid_position board
      (piece.moved 0 ((((GRID_HEIGHT - piece.position.2).toNat : Nat) : Int) + 1))
      = some false := by
    apply is_valid_position_far board piece hw
    have h20 : GRID_HEIGHT = 20 := rfl
    omega
  have hex : ∃ j : Nat,
      is_valid_position board (piece.moved 0 ((j : Int) + 1)) = some false :=
    ⟨_, hfar⟩
  have hstop : is_valid_position board
      (piece.moved 0 ((Nat.find hex : Int) + 1)) = some false :=
    Nat.find_spec hex
  have hval : ∀ j : Nat, 1 ≤ j → j ≤ Nat.find hex →
      is_valid_position board (piece.moved 0 (j : Int)) = some true := by
    intro j h1 hjk
    have hmin : ¬ is_valid_position board
        (piece.moved 0 (((j - 1 : Nat) : Int) + 1)) = some false :=
      Nat.find_min hex (by omega)
    have hcast : ((j - 1 : Nat) : Int) + 1 = (j : Int) := by omega
    rw [hcast] at hmin
    have hwm : (piece.moved 0 (j : Int)).wf = true := by
      rw [Tetromino.wf_moved]
      exact hw
    obtain ⟨cs, hcs, -, -⟩ := Tetromino.cells_of_wf _ hwm
    obtain ⟨v, hv⟩ := is_valid_position_total board _ _ hcs
    cases v with
    | false => exact absurd hv hmin
    | true => exact hv
  have hkle : Nat.find hex ≤ (GRID_HEIGHT - piece.position.2).toNat :=
    Nat.find_min' hex hfar
  refine ⟨Nat.find hex, ?_, hval, hstop, rfl, rfl, by simp [Tetromino.moved]⟩
  unfold hard_drop
  exact hard_drop_fuel_spec board (Nat.find hex) piece _ (by omega) hval hstop

/-- C8 witness: hard-dropping the initial I piece on the empty board
succeeds (it lands 18 rows down). -/
theorem C8_hard_drop_witness :
    ∃ k : Nat, hard_drop create_board (Tetromino.initial "I") =
      some ((Tetromino.initial "I").moved 0 (k : Int)) := by
  obtain ⟨k, h1, -⟩ := C8_hard_drop create_board (Tetromino.initial "I") (by decide)
  exact ⟨k, h1⟩

/-- A reported-valid piece has all cells inside the vertical strip and above
the floor. -/
theorem is_valid_position_bounds (board : Board) (t : Tetromino)
    (cs : List (Int × Int)) (hc : t.cells = some cs)
    (hv : is_valid_position board t = some true) :
    ∀ c ∈ cs, 0 ≤ c.1 ∧ c.1 < GRID_WIDTH ∧ c.2 < GRID_HEIGHT := by
  unfold is_valid_position at hv
  rw [hc] at hv
  simp only [Option.map_some', Option.some.injEq] at hv
  rw [List.all_eq_true] at hv
  intro c hcm
  have hb := hv c hcm
  revert hb
  unfold GRID_WIDTH GRID_HEIGHT
  cases cellOccupied board c.2 c.1 <;> simp <;> omega

/-- A well-formed piece's kind is in the catalog. -/
theorem Tetromino.wf_isSome (t : Tetromino) (hw : t.wf = true) :
    (SHAPES t.name).isSome = true := by
  unfold Tetromino.wf at hw
  cases h : SHAPES t.name with
  | none => rw [h] at hw; exact absurd hw (by simp)
  | some rots => simp [h]

/-- `getCell` only depends on the clamped coordinates. -/
theorem getCell_cast (b : Board) (y x : Int) :
    getCell b ((y.toNat : Nat) : Int) ((x.toNat : Nat) : Int) =
      getCell b y x := by
  unfold getCell
  rw [Int.toNat_natCast, Int.toNat_natCast]

/-- Every kind stored in a kind-valid board is in the catalog. -/
theorem boardKindsValid_getCell (b : Board) (hk : boardKindsValid b = true)
    (y x : Int) (k : String) (h : getCell b y x = some (some k)) :
    (SHAPES k).isSome = true := by
  unfold boardKindsValid at hk
  rw [List.all_eq_true] at hk
  unfold getCell at h
  cases hrow : b.get? y.toNat with
  | none => rw [hrow] at h; exact absurd h (by simp)
  | some row =>
    rw [hrow] at h
    simp only [Option.some_bind] at h
    have hall := hk row (List.get?_mem hrow)
    rw [List.all_eq_true] at hall
    have := hall _ (List.get?_mem h)
    simpa using this

/-- Writing one in-range cell preserves well-formedness, sets that cell, and
changes no other cell. -/
theorem getCell_write (b : Board) (hwf : boardWF b = true)
    (yc xc : Int) (v : Cell) (hy0 : 0 ≤ yc) (hy : yc < GRID_HEIGHT)
    (hx0 : 0 ≤ xc) (hx : xc < GRID_WIDTH) :
    boardWF (pySet b yc (pySet ((b.get? yc.toNat).getD []) xc v)) = true ∧
    getCell (pySet b yc (pySet ((b.get? yc.toNat).getD []) xc v)) yc xc
      = some v ∧
    ∀ y x : Nat, ¬(xc = (x : Int) ∧ yc = (y : Int)) →
      getCell (pySet b yc (pySet ((b.get? yc.toNat).getD []) xc v))
          (y : Int) (x : Int)
        = getCell b (y : Int) (x : Int) := by
  unfold boardWF at hwf
  simp only [Bool.and_eq_true, beq_iff_eq, List.all_eq_true] at hwf
  obtain ⟨hblen, hrows⟩ := hwf
  have h20 : GRID_HEIGHT = 20 := rfl
  have h10 : GRID_WIDTH = 10 := rfl
  have hyn : yc.toNat < b.length := by rw [hblen]; omega
  obtain ⟨row0, hrow0⟩ : ∃ row0, b.get? yc.toNat = some row0 :=
    ⟨b.get ⟨_, hyn⟩, List.get?_eq_get hyn⟩
  have hrow0len : row0.length = GRID_WIDTH.toNat :=
    hrows row0 (List.get?_mem hrow0)
  have hxn : xc.toNat < row0.length := by rw [hrow0len]; omega
  have hps1 : pySet ((b.get? yc.toNat).getD []) xc v = row0.set xc.toNat v := by
    rw [hrow0]
    unfold pySet
    simp [hx0]
  have hps2 : ∀ R, pySet b yc R = b.set yc.toNat R := by
    intro R
    unfold pySet
    simp [hy0]
  rw [hps1, hps2]
  refine ⟨?_, ?_, ?_⟩
  · unfold boardWF
    simp only [Bool.and_eq_true, beq_iff_eq, List.all_eq_true]
    refine ⟨by rw [List.length_set, hblen], ?_⟩
    intro row hr
    rcases List.mem_or_eq_of_mem_set hr with hr | rfl
    · exact hrows row hr
    · rw [List.length_set]
      exact hrow0len
  · unfold getCell
    rw [List.get?_set_eq, hrow0]
    simp only [Option.map_eq_map, Option.map_some', Option.some_bind]
    rw [List.get?_set_eq, List.get?_eq_get hxn]
    rfl
  · intro y x hne
    have hyx : ((y : Int)).toNat = y := Int.toNat_natCast y
    have hxx : ((x : Int)).toNat = x := Int.toNat_natCast x
    unfold getCell
    rw [hyx, hxx]
    by_cases hyy : yc.toNat = y
    · have hyceq : yc = (y : Int) := by
        rw [← hyy, Int.toNat_of_nonneg hy0]
      have hxne : xc.toNat ≠ x := by
        intro hxeq
        exact hne ⟨by rw [← hxeq, Int.toNat_of_nonneg hx0], hyceq⟩
      rw [← hyy, List.get?_set_eq, hrow0]
      simp only [Option.map_eq_map, Option.map_some', Option.some_bind]
      rw [List.get?_set_ne _ _ hxne]
    · rw [List.get?_set_ne _ _ hyy]

/-- The write loop of `lock_piece` writes the kind into every listed cell
with `0 ≤ y` and changes nothing else, preserving well-formedness (cells are
assumed in the strip `0 ≤ x < W`, `y < H`, as validity guarantees). -/
theorem lockFold_spec (name : String) :
    ∀ (cs : List (Int × Int)) (b : Board),
    (∀ c ∈ cs, 0 ≤ c.1 ∧ c.1 < GRID_WIDTH ∧ c.2 < GRID_HEIGHT) →
    boardWF b = true →
    boardWF (lockFold name cs b) = true ∧
    (∀ c ∈ cs, 0 ≤ c.2 →
      getCell (lockFold name cs b) c.2 c.1 = some (some name)) ∧
    (∀ y x : Nat, (∀ c ∈ cs, ¬(c.1 = (x : Int) ∧ c.2 = (y : Int))) →
      getCell (lockFold name cs b) (y : Int) (x : Int) =
        getCell b (y : Int) (x : Int)) := by
  intro cs
  induction cs with
  | nil =>
    intro b hbnd hwf
    exact ⟨hwf, by simp, fun y x _ => rfl⟩
  | cons c cs ih =>
    intro b hbnd hwf
    have hc := hbnd c (List.mem_cons_self c cs)
    have hbnd' : ∀ c' ∈ cs, 0 ≤ c'.1 ∧ c'.1 < GRID_WIDTH ∧ c'.2 < GRID_HEIGHT :=
      fun c' hc' => hbnd c' (List.mem_cons_of_mem c hc')
    by_cases hy0 : 0 ≤ c.2
    · have hstep : lockFold name (c :: cs) b = lockFold name cs
          (pySet b c.2 (pySet ((b.get? c.2.toNat).getD []) c.1 (some name))) := by
        unfold lockFold
        simp only [List.foldl_cons]
        rw [if_pos (by simp [hy0, hc.2.2])]
      obtain ⟨hwf1, hset, hframe1⟩ :=
        getCell_write b hwf c.2 c.1 (some name) hy0 hc.2.2 hc.1 hc.2.1
      obtain ⟨hwfR, hwriteR, hframeR⟩ := ih _ hbnd' hwf1
      rw [hstep]
      refine ⟨hwfR, ?_, ?_⟩
      · intro c' hc' hc'0
        rcases List.mem_cons.mp hc' with rfl | hc'
        · by_cases hdup : ∃ c'' ∈ cs, c''.1 = c'.1 ∧ c''.2 = c'.2
          · obtain ⟨c'', hm, he1, he2⟩ := hdup
            have hres := hwriteR c'' hm (by rw [he2]; exact hc'0)
            rw [he1, he2] at hres
            exact hres
          · push_neg at hdup
            have hcast1 : ((c'.2.toNat : Nat) : Int) = c'.2 :=
              Int.toNat_of_nonneg hc'0
            have hcast2 : ((c'.1.toNat : Nat) : Int) = c'.1 :=
              Int.toNat_of_nonneg hc.1
            have hfr := hframeR c'.2.toNat c'.1.toNat ?_
            · rw [hcast1, hcast2] at hfr
              rw [hfr]
              exact hset
            · intro c'' hm
              rw [hcast1, hcast2]
              intro hcon
              exact absurd hcon.2 (hdup c'' hm hcon.1)
        · exact hwriteR c' hc' hc'0
      · intro y x hne
        have hne' : ∀ c' ∈ cs, ¬(c'.1 = (x : Int) ∧ c'.2 = (y : Int)) :=
          fun c' hm => hne c' (List.mem_cons_of_mem c hm)
        rw [hframeR y x hne']
        exact hframe1 y x fun hcon =>
          hne c (List.mem_cons_self c cs) ⟨hcon.1, hcon.2⟩
    · have hstep : lockFold name (c :: cs) b = lockFold name cs b := by
        unfold lockFold
        simp only [List.foldl_cons]
        rw [if_neg (by simp [hy0])]
      obtain ⟨hwfR, hwriteR, hframeR⟩ := ih b hbnd' hwf
      rw [hstep]
      refine ⟨hwfR, ?_, ?_⟩
      · intro c' hc' hc'0
        rcases List.mem_cons.mp hc' with rfl | hc'
        · exact absurd hc'0 hy0
        · exact hwriteR c' hc' hc'0
      · intro y x hne
        exact hframeR y x fun c' hm => hne c' (List.mem_cons_of_mem c hm)

/-- C10: locking a reported-valid piece into a well-formed board writes the
piece's kind into exactly the occupied cells with `y` in `[0, 20)` and
changes nothing else: untouched cells keep their value, dimensions are
preserved, and every stored kind is still valid. -/
theorem C10_lock_piece_frame (board : Board) (piece : Tetromino)
    (cs : List (Int × Int))
    (hwf : boardWF board = true) (hkv : boardKindsValid board = true)
    (hpw : piece.wf = true)
    (hc : piece.cells = some cs)
    (hv : is_valid_position board piece = some true) :
    ∃ board1,
      lock_piece board piece = some board1 ∧
      boardWF board1 = true ∧
      (∀ c ∈ cs, 0 ≤ c.2 → getCell board1 c.2 c.1 = some (some piece.name)) ∧
      (∀ y x : Nat, (∀ c ∈ cs, ¬(c.1 = (x : Int) ∧ c.2 = (y : Int))) →
        getCell board1 (y : Int) (x : Int) = getCell board (y : Int) (x : Int)) ∧
      (∀ y x : Int, ∀ k, getCell board1 y x = some (some k) →
        (SHAPES k).isSome = true) := by
  have hbnd := is_valid_position_bounds board piece cs hc hv
  have hlock : lock_piece board piece = some (lockFold piece.name cs board) := by
    unfold lock_piece lockFold
    rw [hc]
    rfl
  obtain ⟨hwfR, hwrite, hframe⟩ := lockFold_spec piece.name cs board hbnd hwf
  refine ⟨lockFold piece.name cs board, hlock, hwfR, hwrite, hframe, ?_⟩
  intro y x k hk
  rw [← getCell_cast _ y x] at hk
  by_cases hmatch : ∃ c ∈ cs, c.1 = ((x.toNat : Nat) : Int) ∧
      c.2 = ((y.toNat : Nat) : Int)
  · obtain ⟨c0, hm, he1, he2⟩ := hmatch
    have := hwrite c0 hm (by rw [he2]; exact Int.ofNat_nonneg _)
    rw [he1, he2] at this
    rw [this] at hk
    have hkk : k = piece.name := by
      injection hk with hk
      injection hk with hk
      exact hk.symm
    rw [hkk]
    exact Tetromino.wf_isSome piece hpw
  · push_neg at hmatch
    rw [hframe y.toNat x.toNat
      (fun c hm hcon => absurd hcon.2 (hmatch c hm hcon.1))] at hk
    rw [getCell_cast _ y x] at hk
    exact boardKindsValid_getCell board hkv y x k hk

/-- C10 witness: locking an O piece at the bottom-left of the empty board
writes its kind at row 18, column 1. -/
theorem C10_lock_piece_frame_witness :
    ∃ board1, lock_piece create_board (Tetromino.mk "O" 0 (0, 18)) = some board1 ∧
      getCell board1 18 1 = some (some "O") := by
  obtain ⟨b1, hl, -, hw, -, -⟩ :=
    C10_lock_piece_frame create_board (Tetromino.mk "O" 0 (0, 18))
      [(1, 18), (2, 18), (1, 19), (2, 19)]
      (by decide) (by decide) (by decide) (by decide) (by decide)
  exact ⟨b1, hl, hw (1, 18) (by decide) (by decide)⟩

end Tetris
